import Mathlib

/-!
Verification of the AI job-search application's core logic: the simulated
multi-source result reveal in `fetchJobs`, the pagination derivation, the
saved-jobs store (`handleSaveJob` / `handleUnsaveJob` / `isJobSaved`), the
saved-jobs load from durable storage, and the `findJobs` service wrapper.

The definitions below are shallow embeddings of the corresponding TypeScript
functions.  The asynchronous `fetchJobs` callback is modelled as a sequence of
synchronous segments of atomic state updates, one segment per stretch of code
between `await` suspension points; an execution of one or more overlapping
search sessions is a merge of their segment sequences.
-/

namespace JobSearch

/-- Employment kind: the fixed enumeration from the `Job` TypeScript type. -/
inductive JobType
  | fullTime
  | partTime
  | contract
  | internship
deriving DecidableEq

/-- The `Job` record from `types.ts`: opaque identifier plus descriptive fields. -/
structure Job where
  id : String
  title : String
  company : String
  location : String
  type : JobType
  description : String
  skills : List String
  salaryRange : Option String
deriving DecidableEq

/-- A concrete job used as test data; the identifier is the decimal numeral. -/
def mkJob (n : Nat) : Job :=
  ⟨toString n, "t", "c", "l", JobType.fullTime, "d", [], none⟩

/-- `JOB_SOURCES`: the fixed ordered list of job-board labels in `App.tsx`. -/
def JOB_SOURCES : List String :=
  ["LinkedIn", "Indeed", "Glassdoor", "Wellfound", "Google Careers"]

/-- `scrapingStatus` state: completed source labels and the current source. -/
structure RevealStatus where
  completed : List String
  current : Option String
deriving DecidableEq

/-- `Math.ceil(total / n)` for natural `total` and positive `n`
(`jobsPerSource` in `fetchJobs`). -/
def jobsPerSource (total n : Nat) : Nat :=
  (total + n - 1) / n

/-- The slice of `App` component state read and written by `fetchJobs`. -/
structure AppState where
  jobs : List Job
  scraping : RevealStatus
  error : Option String
  isLoading : Bool
deriving DecidableEq

/-- Atomic state updates performed by `fetchJobs` (each is one or more
synchronous `setX` calls that always occur together). -/
inductive Action
  | reset
  | setCurrent (s : String)
  | appendJobs (batch : List Job)
  | markCompleted (s : String) (next : Option String)
  | markAllSources
  | setErrorMsg (msg : String)
  | clearJobs
  | setLoadingDone
deriving DecidableEq

/-- Effect of one atomic update on the component state, following the
corresponding `setState` calls in `fetchJobs`. -/
def applyAction (st : AppState) : Action → AppState
  | Action.reset => ⟨[], ⟨[], JOB_SOURCES[0]?⟩, none, true⟩
  | Action.setCurrent s => { st with scraping := ⟨st.scraping.completed, some s⟩ }
  | Action.appendJobs b => { st with jobs := st.jobs ++ b }
  | Action.markCompleted s nxt => { st with scraping := ⟨st.scraping.completed ++ [s], nxt⟩ }
  | Action.markAllSources => { st with scraping := ⟨JOB_SOURCES, none⟩ }
  | Action.setErrorMsg m => { st with error := some m }
  | Action.clearJobs => { st with jobs := [] }
  | Action.setLoadingDone => { st with isLoading := false }

/-- Initial component state: empty results, empty status, loading flag set. -/
def initState : AppState :=
  ⟨[], ⟨[], none⟩, none, true⟩

/-- Run a list of atomic updates in order. -/
def runActs (st : AppState) (acts : List Action) : AppState :=
  acts.foldl applyAction st

/-- Segments of the reveal loop after each `setTimeout` await: for the source
handled at offset `a` into the fetched list, append the next slice of size `c`,
mark the source completed with `current` advanced to the next source, and — in
the same synchronous segment — either set the next source current (next loop
iteration head) or clear the loading flag (loop exit and `finally`). -/
def postTimeoutSegs (f : List Job) (c : Nat) : List String → Nat → List (List Action)
  | [], _ => []
  | s :: rest, a =>
      (Action.appendJobs ((f.drop a).take c) :: Action.markCompleted s rest.head? ::
        (match rest.head? with
         | some s2 => [Action.setCurrent s2]
         | none => [Action.setLoadingDone])) ::
      postTimeoutSegs f c rest (a + c)

/-- Segments of the reveal phase: the segment that runs when `findJobs`
resolves (first loop iteration sets the first source current), then one
segment per timer expiry. -/
def revealSegs (f : List Job) (c : Nat) (srcs : List String) : List (List Action) :=
  match srcs with
  | [] => [[Action.setLoadingDone]]
  | s :: _ => [Action.setCurrent s] :: postTimeoutSegs f c srcs 0

/-- One `fetchJobs` invocation as a list of synchronous segments, given the
outcome of the awaited `findJobs` call.  The first segment (up to the
`findJobs` await) resets loading/error/results/status; the remaining segments
depend on the outcome: error handler, empty-list early return, or the
per-source reveal loop. -/
def sessionSegments (result : Except String (List Job)) : List (List Action) :=
  match result with
  | Except.error msg =>
      [[Action.reset], [Action.setErrorMsg msg, Action.clearJobs, Action.setLoadingDone]]
  | Except.ok f =>
      if f.length = 0 then
        [[Action.reset], [Action.markAllSources, Action.setLoadingDone]]
      else
        [Action.reset] ::
          revealSegs f (jobsPerSource f.length JOB_SOURCES.length) JOB_SOURCES

/-- Run a segment sequence from the initial state. -/
def runTrace (segs : List (List Action)) : AppState :=
  runActs initState segs.flatten

/-- Final state of a single uninterrupted `fetchJobs` run. -/
def fetchJobsRun (result : Except String (List Job)) : AppState :=
  runTrace (sessionSegments result)

/-- Project the batch appended by an atomic update, if any. -/
def extractBatch : Action → Option (List Job)
  | Action.appendJobs b => some b
  | _ => none

/-- The batches emitted (appended to the visible results) by one successful
`fetchJobs` run on fetched list `f`. -/
def emittedBatches (f : List Job) : List (List Job) :=
  ((sessionSegments (Except.ok f)).flatten).filterMap extractBatch

/-- The first `n` contiguous chunks of size `c` of a list (a chunk past the
end is empty). -/
def chunksList (c : Nat) : Nat → List Job → List (List Job)
  | 0, _ => []
  | n + 1, l => l.take c :: chunksList c n (l.drop c)

/-- `Merge xs ys zs`: `zs` is an order-preserving interleaving of `xs` and
`ys` (the possible event-loop schedules of two overlapping sessions). -/
inductive Merge {α : Type} : List α → List α → List α → Prop
  | nil : Merge [] [] []
  | left {x : α} {xs ys zs : List α} : Merge xs ys zs → Merge (x :: xs) ys (x :: zs)
  | right {y : α} {xs ys zs : List α} : Merge xs ys zs → Merge xs (y :: ys) (y :: zs)

/-- `JOBS_PER_PAGE` in `App.tsx`. -/
def JOBS_PER_PAGE : Nat := 9

/-- `totalPages = Math.ceil(length / JOBS_PER_PAGE)`, as natural ceiling
division. -/
def totalPages (len : Nat) : Nat :=
  (len + JOBS_PER_PAGE - 1) / JOBS_PER_PAGE

/-- `currentJobsOnPage = jobsToDisplay.slice((page-1)*9, page*9)` for a
1-based page index. -/
def currentJobsOnPage (jobs : List Job) (page : Nat) : List Job :=
  (jobs.drop ((page - 1) * JOBS_PER_PAGE)).take JOBS_PER_PAGE

/-- `handlePageChange` stores the requested page verbatim via
`setCurrentPage(page)`; the scroll call has no state effect. -/
def handlePageChange (page : Int) : Int :=
  page

/-- `handleSaveJob`: append the job unless its identifier is already present. -/
def handleSaveJob (prev : List Job) (jobToSave : Job) : List Job :=
  match prev.find? (fun job => job.id == jobToSave.id) with
  | some _ => prev
  | none => prev ++ [jobToSave]

/-- `handleUnsaveJob`: keep exactly the entries whose identifier differs. -/
def handleUnsaveJob (prev : List Job) (jobId : String) : List Job :=
  prev.filter (fun job => job.id != jobId)

/-- `isJobSaved`: membership of an identifier in the saved collection. -/
def isJobSaved (savedJobs : List Job) (jobId : String) : Bool :=
  savedJobs.any (fun job => job.id == jobId)

/-- Initial `savedJobs` state: read the stored value; a missing key or an
empty (falsy) string yields the empty list, a deserialization failure is
caught and yields the empty list, otherwise the deserialized value is used.
The deserializer (`JSON.parse`) is passed as an oracle. -/
def loadSavedJobs (stored : Option String) (parse : String → Except String (List Job)) :
    List Job :=
  match stored with
  | none => []
  | some s =>
      if s = "" then []
      else
        match parse s with
        | Except.ok jobs => jobs
        | Except.error _ => []

/-- A concrete deserializer oracle: succeeds only on the key string "good". -/
def parseFixture : String → Except String (List Job) :=
  fun s => if s = "good" then Except.ok [mkJob 1] else Except.error "bad"

/-- JSON values, for stating what `findJobs` returns unvalidated. -/
inductive Json
  | null
  | bool (b : Bool)
  | num (n : Int)
  | str (s : String)
  | arr (xs : List Json)
  | obj (fields : List (String × Json))

/-- Look up a field of a JSON object field list. -/
def lookupField (fields : List (String × Json)) (k : String) : Option Json :=
  (fields.find? (fun p => p.1 == k)).map (fun p => p.2)

/-- Is a JSON value a string? -/
def isStringJson : Json → Bool
  | Json.str _ => true
  | _ => false

/-- The employment-kind enumeration of the `Job` TypeScript type. -/
def jobTypeStrings : List String :=
  ["Full-time", "Part-time", "Contract", "Internship"]

/-- Whether a JSON value conforms to the `Job` record shape: required string
fields, employment kind in the fixed enumeration, skills an array of strings,
optional/nullable salary range. -/
def conformsToJob : Json → Bool
  | Json.obj fs =>
      (match lookupField fs "id" with | some (Json.str _) => true | _ => false) &&
      (match lookupField fs "title" with | some (Json.str _) => true | _ => false) &&
      (match lookupField fs "company" with | some (Json.str _) => true | _ => false) &&
      (match lookupField fs "location" with | some (Json.str _) => true | _ => false) &&
      (match lookupField fs "type" with
       | some (Json.str t) => jobTypeStrings.contains t
       | _ => false) &&
      (match lookupField fs "description" with | some (Json.str _) => true | _ => false) &&
      (match lookupField fs "skills" with
       | some (Json.arr xs) => xs.all isStringJson
       | _ => false) &&
      (match lookupField fs "salaryRange" with
       | none => true
       | some Json.null => true
       | some (Json.str _) => true
       | some _ => false)
  | _ => false

/-- Whether a JSON value is an array of `Job`-shaped objects. -/
def conformsToJobArray : Json → Bool
  | Json.arr xs => xs.all conformsToJob
  | _ => false

/-- `findJobs`: awaits the service response text, parses it, and returns the
parsed value via an unchecked cast; any exception (service failure or parse
failure) is caught and rethrown as the fixed error message.  The service
outcome and `JSON.parse` are oracles. -/
def findJobsModel (serviceResponse : Except String String)
    (parse : String → Except String Json) : Except String Json :=
  match serviceResponse with
  | Except.error _ => Except.error "Failed to fetch job listings from Gemini API."
  | Except.ok text =>
      match parse text with
      | Except.error _ => Except.error "Failed to fetch job listings from Gemini API."
      | Except.ok v => Except.ok v

/-- A parseable JSON value that does not conform to the `Job` shape. -/
def badValue : Json :=
  Json.arr [Json.obj [("foo", Json.num 1)]]

/-- A `JSON.parse` oracle whose result is `badValue`. -/
def badParse : String → Except String Json :=
  fun _ => Except.ok badValue

/-- Three saved jobs (pagination shrink scenario). -/
def demoJobs3 : List Job :=
  [mkJob 1, mkJob 2, mkJob 3]

/-- Ten fetched jobs (the spec's reveal example). -/
def demoJobs10 : List Job :=
  [mkJob 1, mkJob 2, mkJob 3, mkJob 4, mkJob 5,
   mkJob 6, mkJob 7, mkJob 8, mkJob 9, mkJob 10]

/-- First search's fetched jobs. -/
def f1jobs : List Job :=
  [mkJob 1, mkJob 2, mkJob 3, mkJob 4, mkJob 5]

/-- Second search's fetched jobs (disjoint identifiers from `f1jobs`). -/
def f2jobs : List Job :=
  [mkJob 6, mkJob 7, mkJob 8, mkJob 9, mkJob 10]

/-- Segment sequence of the first search session. -/
def sessionOne : List (List Action) :=
  sessionSegments (Except.ok f1jobs)

/-- Segment sequence of the second search session. -/
def sessionTwo : List (List Action) :=
  sessionSegments (Except.ok f2jobs)

/-- A realizable schedule: the first session runs up to its first emitted
batch, the user starts the second search (its reset segment runs
synchronously), the first session's remaining timer segments fire while the
second session is still awaiting `findJobs`, and then the second session's
remaining segments run. -/
def staleTrace : List (List Action) :=
  sessionOne.take 3 ++ sessionTwo.take 1 ++ sessionOne.drop 3 ++ sessionTwo.drop 1

/-! ### Helper lemmas about the reveal loop -/

theorem chunksList_flatten (c : Nat) :
    ∀ (n : Nat) (l : List Job), l.length ≤ n * c → (chunksList c n l).flatten = l
  | 0, l, h => by
      have : l = [] := List.eq_nil_of_length_eq_zero (Nat.le_zero.mp (by simpa using h))
      simp [this, chunksList]
  | n + 1, l, h => by
      have hrec : (l.drop c).length ≤ n * c := by
        simp only [List.length_drop]
        have : (n + 1) * c = n * c + c := by ring
        omega
      simp [chunksList, chunksList_flatten c n (l.drop c) hrec]

theorem chunksList_eq_range_map (c : Nat) :
    ∀ (n : Nat) (l : List Job),
      chunksList c n l = (List.range n).map (fun i => (l.drop (i * c)).take c)
  | 0, _ => by simp [chunksList]
  | n + 1, l => by
      rw [List.range_succ_eq_map, List.map_cons, List.map_map]
      simp only [chunksList, Nat.zero_mul, List.drop_zero]
      rw [chunksList_eq_range_map c n (l.drop c)]
      refine congrArg _ (List.map_congr_left fun i _ => ?_)
      simp only [Function.comp_apply]
      rw [List.drop_drop]
      have h2 : c + i * c = Nat.succ i * c := by rw [Nat.succ_mul]; omega
      rw [h2]

theorem postTimeoutSegs_batches (f : List Job) (c : Nat) :
    ∀ (srcs : List String) (a : Nat),
      ((postTimeoutSegs f c srcs a).flatten).filterMap extractBatch =
        chunksList c srcs.length (f.drop a)
  | [], _ => by simp [postTimeoutSegs, chunksList]
  | s :: rest, a => by
      have ih := postTimeoutSegs_batches f c rest (a + c)
      simp only [postTimeoutSegs, List.flatten_cons, List.filterMap_append, ih]
      cases h : rest.head? <;>
        simp [extractBatch, chunksList, List.drop_drop, Nat.add_comm]

theorem postTimeoutSegs_run (f : List Job) (c : Nat) :
    ∀ (srcs : List String) (a : Nat) (st : AppState), srcs ≠ [] →
      runActs st ((postTimeoutSegs f c srcs a).flatten) =
        ⟨st.jobs ++ (chunksList c srcs.length (f.drop a)).flatten,
         ⟨st.scraping.completed ++ srcs, none⟩, st.error, false⟩
  | [], _, _, h => absurd rfl h
  | [s], a, st, _ => by
      simp [postTimeoutSegs, runActs, applyAction, chunksList]
  | s :: s2 :: rest, a, st, _ => by
      have ih := postTimeoutSegs_run f c (s2 :: rest) (a + c)
        ⟨st.jobs ++ (f.drop a).take c, ⟨st.scraping.completed ++ [s], some s2⟩,
          st.error, st.isLoading⟩ (by simp)
      simp only [postTimeoutSegs, List.head?, List.flatten_cons, runActs,
        List.foldl_append, List.foldl_cons, List.foldl_nil, applyAction] at ih ⊢
      rw [ih]
      simp [chunksList, List.drop_drop, Nat.add_comm, List.append_assoc]

/-! ### Helper lemmas about interleavings -/

theorem merge_nil_left {α : Type} : ∀ ys : List α, Merge [] ys ys
  | [] => Merge.nil
  | _ :: ys => Merge.right (merge_nil_left ys)

theorem merge_of_append {α : Type} : ∀ xs ys : List α, Merge xs ys (xs ++ ys)
  | [], ys => by simpa using merge_nil_left ys
  | x :: xs, ys => Merge.left (merge_of_append xs ys)

theorem merge_append {α : Type} {a b z d e w : List α}
    (h1 : Merge a b z) (h2 : Merge d e w) : Merge (a ++ d) (b ++ e) (z ++ w) := by
  induction h1 with
  | nil => simpa using h2
  | left _ ih => exact Merge.left ih
  | right _ ih => exact Merge.right ih

theorem merge_take_drop {α : Type} (xs ys : List α) (a b : Nat) :
    Merge xs ys (xs.take a ++ ys.take b ++ xs.drop a ++ ys.drop b) := by
  have h := merge_append (merge_of_append (xs.take a) (ys.take b))
    (merge_of_append (xs.drop a) (ys.drop b))
  rw [List.take_append_drop, List.take_append_drop] at h
  simpa [List.append_assoc] using h

/-! ### Helper lemma about ceiling division -/

theorem totalPages_cast (len : Nat) :
    (totalPages len : ℤ) = Int.ceil ((len : ℚ) / 9) := by
  have h9 : (0 : ℚ) < 9 := by norm_num
  rw [eq_comm, Int.ceil_eq_iff]
  have hdef : totalPages len = (len + 8) / 9 := by
    simp only [totalPages, JOBS_PER_PAGE]
    omega
  constructor
  · rw [sub_lt_iff_lt_add, div_add' _ _ _ (ne_of_gt h9)]
    rw [lt_div_iff₀ h9]
    have h1 : totalPages len * 9 ≤ len + 8 := by
      rw [hdef]; omega
    have h1q : ((totalPages len : ℚ)) * 9 ≤ (len : ℚ) + 8 := by exact_mod_cast h1
    push_cast
    linarith
  · rw [div_le_iff₀ h9]
    have h2 : len ≤ totalPages len * 9 := by
      rw [hdef]; omega
    exact_mod_cast h2

/-! ### Helper lemmas about the saved-jobs store -/

theorem handleSaveJob_mem (l : List Job) (j : Job) (h : isJobSaved l j.id = true) :
    handleSaveJob l j = l := by
  obtain ⟨x, hx, hpx⟩ := List.any_eq_true.mp h
  cases hfind : l.find? (fun job => job.id == j.id) with
  | some y => simp [handleSaveJob, hfind]
  | none => exact absurd hpx (by simpa using List.find?_eq_none.mp hfind x hx)

theorem handleSaveJob_absent (l : List Job) (j : Job) (h : isJobSaved l j.id = false) :
    handleSaveJob l j = l ++ [j] := by
  have hfind : l.find? (fun job => job.id == j.id) = none := by
    apply List.find?_eq_none.mpr
    intro x hx hpx
    have hany : l.any (fun job => job.id == j.id) = true := List.any_eq_true.mpr ⟨x, hx, hpx⟩
    rw [isJobSaved, hany] at h
    cases h
  simp [handleSaveJob, hfind]

/-! ### Claim theorems -/

/-- C6: on a saved collection with unique identifiers, saving makes the
identifier saved; saving an already-present identifier leaves the collection
unchanged; saving is idempotent (in particular the length is unchanged by the
second save); and unsaving a non-member identifier is a no-op. -/
theorem savedJobs_props (saved : List Job) (j : Job) (jid : String)
    (hnd : (saved.map Job.id).Nodup) :
    isJobSaved (handleSaveJob saved j) j.id = true
    ∧ (isJobSaved saved j.id = true → handleSaveJob saved j = saved)
    ∧ handleSaveJob (handleSaveJob saved j) j = handleSaveJob saved j
    ∧ (handleSaveJob (handleSaveJob saved j) j).length = (handleSaveJob saved j).length
    ∧ (isJobSaved saved jid = false → handleUnsaveJob saved jid = saved) := by
  have hsave : isJobSaved (handleSaveJob saved j) j.id = true := by
    cases hs : isJobSaved saved j.id with
    | true => rw [handleSaveJob_mem saved j hs]; exact hs
    | false =>
        rw [handleSaveJob_absent saved j hs]
        simp [isJobSaved, List.any_append]
  have hidem : handleSaveJob (handleSaveJob saved j) j = handleSaveJob saved j :=
    handleSaveJob_mem _ j hsave
  refine ⟨hsave, fun h => handleSaveJob_mem saved j h, hidem, by rw [hidem], fun h => ?_⟩
  apply List.filter_eq_self.mpr
  intro x hx
  simp only [bne_iff_ne, ne_eq]
  intro he
  have hany : isJobSaved saved jid = true :=
    List.any_eq_true.mpr ⟨x, hx, by simp [he]⟩
  rw [hany] at h
  cases h

/-- C6 witness: saving a fresh job into a one-element unique collection makes
its identifier saved. -/
theorem savedJobs_props_witness :
    isJobSaved (handleSaveJob [mkJob 1] (mkJob 2)) (mkJob 2).id = true :=
  (savedJobs_props [mkJob 1] (mkJob 2) "zz" (by decide)).1

/-- C10: saving an absent identifier appends the job at the end, leaving the
prefix untouched; unsaving removes exactly the entries with the given
identifier, preserving the relative order and field values of the rest
(sublist), with membership characterised exactly. -/
theorem savedJobs_frame (saved : List Job) (j : Job) (jid : String) :
    (j.id ∉ saved.map Job.id → handleSaveJob saved j = saved ++ [j])
    ∧ List.Sublist (handleUnsaveJob saved jid) saved
    ∧ (∀ x : Job, x ∈ handleUnsaveJob saved jid ↔ x ∈ saved ∧ x.id ≠ jid) := by
  refine ⟨fun h => ?_, List.filter_sublist saved, fun x => ?_⟩
  · have hfalse : isJobSaved saved j.id = false := by
      cases hs : isJobSaved saved j.id with
      | false => rfl
      | true =>
          obtain ⟨x, hx, hpx⟩ := List.any_eq_true.mp hs
          exact absurd (List.mem_map.mpr ⟨x, hx, by simpa using hpx⟩) h
    exact handleSaveJob_absent saved j hfalse
  · simp [handleUnsaveJob, List.mem_filter, bne_iff_ne]

/-- C10 witness: saving a fresh job appends it at the end. -/
theorem savedJobs_frame_witness :
    handleSaveJob [mkJob 1] (mkJob 2) = [mkJob 1] ++ [mkJob 2] :=
  (savedJobs_frame [mkJob 1] (mkJob 2) "q").1 (by decide)

/-- C2: on a non-empty fetched list the reveal loop emits exactly 5 batches,
the i-th being the contiguous slice of size `ceil(L/5)` starting at
`i * ceil(L/5)` clipped to the list bounds; their concatenation is the
original list in order, and the final status has all sources completed in
order with no current source. -/
theorem reveal_partition (f : List Job) (hf : f ≠ []) :
    emittedBatches f =
      (List.range 5).map
        (fun i => (f.drop (i * jobsPerSource f.length 5)).take (jobsPerSource f.length 5))
    ∧ (emittedBatches f).length = 5
    ∧ (emittedBatches f).flatten = f
    ∧ (fetchJobsRun (Except.ok f)).jobs = f
    ∧ (fetchJobsRun (Except.ok f)).scraping = RevealStatus.mk JOB_SOURCES none := by
  have hlen : ¬ f.length = 0 := by simpa [List.length_eq_zero] using hf
  set c := jobsPerSource f.length 5 with hc
  have hcover : f.length ≤ 5 * c := by
    rw [hc]; unfold jobsPerSource; omega
  have hsess :
      sessionSegments (Except.ok f) =
        [Action.reset] :: [Action.setCurrent "LinkedIn"] ::
          postTimeoutSegs f c JOB_SOURCES 0 := by
    simp [sessionSegments, hlen, revealSegs, JOB_SOURCES]
  have hbatch : emittedBatches f = chunksList c 5 f := by
    have hb := postTimeoutSegs_batches f c JOB_SOURCES 0
    simp only [emittedBatches, hsess, List.flatten_cons, List.filterMap_append,
      List.filterMap_cons, List.filterMap_nil, extractBatch, List.drop_zero] at hb ⊢
    simpa [JOB_SOURCES] using hb
  have hflat : (chunksList c 5 f).flatten = f := chunksList_flatten c 5 f hcover
  have hrunpts := postTimeoutSegs_run f c JOB_SOURCES 0
    ⟨[], ⟨[], some "LinkedIn"⟩, none, true⟩ (by simp [JOB_SOURCES])
  have hrun : fetchJobsRun (Except.ok f) =
      ⟨f, ⟨JOB_SOURCES, none⟩, none, false⟩ := by
    rw [fetchJobsRun, runTrace, hsess]
    simp only [List.flatten_cons, runActs, List.foldl_append, List.foldl_cons,
      List.foldl_nil]
    rw [show applyAction (applyAction initState Action.reset)
          (Action.setCurrent "LinkedIn") =
        ⟨[], ⟨[], some "LinkedIn"⟩, none, true⟩ from rfl]
    rw [runActs] at hrunpts
    rw [hrunpts]
    simp [JOB_SOURCES, List.drop_zero, hflat]
  refine ⟨?_, ?_, ?_, ?_, ?_⟩
  · rw [hbatch, chunksList_eq_range_map]
  · rw [hbatch, chunksList_eq_range_map]; simp
  · rw [hbatch]; exact hflat
  · rw [hrun]
  · rw [hrun]

/-- C2 witness: the ten-job example is revealed as five two-job batches whose
concatenation is the original list. -/
theorem reveal_partition_witness :
    (emittedBatches demoJobs10).flatten = demoJobs10 :=
  (reveal_partition demoJobs10 (by decide)).2.2.1

/-- C3 counterexample: after a `findJobs` failure the reveal status current
source is the first source label, not `none` as the claim states. -/
theorem fetchJobs_error_current_not_none :
    (fetchJobsRun (Except.error "Failed to fetch job listings from Gemini API.")).scraping.current
        = some "LinkedIn"
    ∧ (fetchJobsRun
        (Except.error "Failed to fetch job listings from Gemini API.")).scraping.current
        ≠ none :=
  ⟨rfl, by decide⟩

/-- C3 amended: on a `findJobs` failure the error message is captured, the
results collection is left empty, loading ends, and the reveal status stays
at its reset value (no source completed, current = the first source). -/
theorem fetchJobs_error_state (msg : String) :
    fetchJobsRun (Except.error msg) =
      ⟨[], ⟨[], some "LinkedIn"⟩, some msg, false⟩ := rfl

/-- C7: on an empty fetched list the loop is skipped: zero batches are
emitted, the results stay empty, all sources are immediately completed with
no current source, and loading ends. -/
theorem fetchJobs_empty_run :
    fetchJobsRun (Except.ok ([] : List Job)) =
        ⟨[], ⟨JOB_SOURCES, none⟩, none, false⟩
    ∧ emittedBatches [] = [] :=
  ⟨rfl, rfl⟩

/-- C1: violated.  `staleTrace` is a valid interleaving of two search
sessions in which the second search's reset runs after the first session has
emitted only its first batch; yet the final results collection contains the
first (superseded) search's remaining batches, and the final reveal status is
not the terminal status of the second search. -/
theorem fetchJobs_superseded_reveal_appends_stale :
    Merge sessionOne sessionTwo staleTrace
    ∧ (runTrace staleTrace).jobs = f1jobs.drop 1 ++ f2jobs
    ∧ (runTrace staleTrace).jobs ≠ f2jobs
    ∧ mkJob 2 ∈ (runTrace staleTrace).jobs
    ∧ mkJob 2 ∈ f1jobs
    ∧ mkJob 2 ∉ f2jobs
    ∧ (runTrace staleTrace).scraping ≠ RevealStatus.mk JOB_SOURCES none :=
  ⟨merge_take_drop sessionOne sessionTwo 3 1, rfl, by decide, by decide, by decide,
    by decide, by decide⟩

/-- C4: with page size 9, `totalPages` is the ceiling of `L / 9` (0 when
`L = 0`), and for a page index in `[1, totalPages]` the visible slice holds
exactly the elements at positions `[(p-1)*9, p*9)` clipped to the collection
bounds, hence never more than 9 elements. -/
theorem pagination_spec (jobs : List Job) (p : Nat) (h1 : 1 ≤ p)
    (h2 : p ≤ totalPages jobs.length) :
    (totalPages jobs.length : ℤ) = Int.ceil ((jobs.length : ℚ) / 9)
    ∧ totalPages 0 = 0
    ∧ (currentJobsOnPage jobs p).length = min 9 (jobs.length - (p - 1) * 9)
    ∧ (currentJobsOnPage jobs p).length ≤ 9
    ∧ (∀ i : Nat, (currentJobsOnPage jobs p)[i]? =
        if i < 9 then jobs[(p - 1) * 9 + i]? else none) := by
  have hmin : (currentJobsOnPage jobs p).length = min 9 (jobs.length - (p - 1) * 9) := by
    simp [currentJobsOnPage, JOBS_PER_PAGE]
  refine ⟨totalPages_cast jobs.length, rfl, hmin, by rw [hmin]; exact Nat.min_le_left _ _,
    fun i => ?_⟩
  simp only [currentJobsOnPage, JOBS_PER_PAGE]
  rw [List.getElem?_take, List.getElem?_drop]

/-- C4 witness: ten jobs at page size 9 give two pages; instantiated at page
2, the ceiling characterisation holds. -/
theorem pagination_spec_witness :
    (totalPages demoJobs10.length : ℤ) = Int.ceil ((demoJobs10.length : ℚ) / 9) :=
  (pagination_spec demoJobs10 2 (by decide) (by decide)).1

/-- C5 counterexample: with a 3-element collection (1 total page), requesting
page 5 stores page 5 — the out-of-range page is retained, not clamped to the
nearest valid page. -/
theorem handlePageChange_no_clamp :
    totalPages demoJobs3.length = 1
    ∧ handlePageChange 5 = 5
    ∧ handlePageChange 5 ≠ 1
    ∧ handlePageChange 5 > (totalPages demoJobs3.length : Int) :=
  ⟨rfl, rfl, by decide, by decide⟩

/-- C5 amended: the requested page is stored verbatim (never an error, no
clamping), and a retained page above `totalPages` simply shows an empty
slice. -/
theorem pageChange_verbatim (pg : Int) (jobs : List Job) (p : Nat)
    (hp : totalPages jobs.length < p) :
    handlePageChange pg = pg ∧ currentJobsOnPage jobs p = [] := by
  refine ⟨rfl, ?_⟩
  have hdef : totalPages jobs.length = (jobs.length + 8) / 9 := by
    simp only [totalPages, JOBS_PER_PAGE]; omega
  have hlen : jobs.length ≤ (p - 1) * 9 := by omega
  simp [currentJobsOnPage, JOBS_PER_PAGE, List.drop_eq_nil_of_le hlen]

/-- C5 amended witness: page 2 over a 3-element collection (1 total page)
shows an empty slice. -/
theorem pageChange_verbatim_witness :
    currentJobsOnPage demoJobs3 2 = [] :=
  (pageChange_verbatim 7 demoJobs3 2 (by decide)).2

/-- C8 counterexample: a response that parses to a value not conforming to
the `Job` shape is returned to the caller as the job list, not turned into an
error. -/
theorem findJobs_returns_nonconforming :
    findJobsModel (Except.ok "resp") badParse = Except.ok badValue
    ∧ conformsToJobArray badValue = false :=
  ⟨rfl, rfl⟩

/-- C8 amended: a service failure or a non-parseable response yields the
fixed error; a parseable response is returned as-is with no local shape
validation. -/
theorem findJobs_validation_behavior (svc : Except String String)
    (parse : String → Except String Json) :
    (∀ e, svc = Except.error e →
        findJobsModel svc parse =
          Except.error "Failed to fetch job listings from Gemini API.")
    ∧ (∀ text e, svc = Except.ok text → parse text = Except.error e →
        findJobsModel svc parse =
          Except.error "Failed to fetch job listings from Gemini API.")
    ∧ (∀ text v, svc = Except.ok text → parse text = Except.ok v →
        findJobsModel svc parse = Except.ok v) := by
  refine ⟨?_, ?_, ?_⟩
  · intro e he; subst he; rfl
  · intro t e hs hp; subst hs; simp [findJobsModel, hp]
  · intro t v hs hp; subst hs; simp [findJobsModel, hp]

/-- C8 amended witness: a parsed value is passed through unvalidated. -/
theorem findJobs_validation_behavior_witness :
    findJobsModel (Except.ok "resp2") badParse = Except.ok badValue :=
  (findJobs_validation_behavior (Except.ok "resp2") badParse).2.2 "resp2" badValue rfl rfl

/-- C9: loading the saved collection never fails: a missing key or a failing
deserialization yields the empty list, and otherwise the deserialized list is
used (the deserializer, like `JSON.parse`, fails on the empty string). -/
theorem loadSavedJobs_spec (parse : String → Except String (List Job))
    (hEmpty : ∀ l, parse "" ≠ Except.ok l) :
    loadSavedJobs none parse = []
    ∧ (∀ s e, parse s = Except.error e → loadSavedJobs (some s) parse = [])
    ∧ (∀ s l, parse s = Except.ok l → loadSavedJobs (some s) parse = l) := by
  refine ⟨rfl, ?_, ?_⟩
  · intro s e hp
    by_cases hs : s = ""
    · simp [loadSavedJobs, hs]
    · simp [loadSavedJobs, hs, hp]
  · intro s l hp
    by_cases hs : s = ""
    · rw [hs] at hp
      exact absurd hp (hEmpty l)
    · simp [loadSavedJobs, hs, hp]

/-- C9 witness: a successful deserialization of a stored string is used as
the initial saved collection. -/
theorem loadSavedJobs_spec_witness :
    loadSavedJobs (some "good") parseFixture = [mkJob 1] :=
  (loadSavedJobs_spec parseFixture (fun l h => by
      have h2 : Except.error "bad" = Except.ok l := h
      exact Except.noConfusion h2)).2.2 "good" [mkJob 1] rfl

end JobSearch
